import Mathlib

/-!
# Verification of the AuditTool rule evaluation engine

Shallow embedding of `src/main.py` (the rule evaluation engine of the
network-configuration audit tool) and proofs of the specified properties.

The engine consumes a hierarchical configuration tree (an external
collaborator, `ciscoconfparse`, whose interface is specified in §6 of the
design document) and declarative rules, and classifies configuration nodes
into pass / fail / not-applicable lists with an overall verdict per rule.

Conventions of the embedding:
* A configuration tree is a `List CNode` of top-level lines, each line
  carrying its positional identity (`lineNo`), its verbatim `text`, and its
  ordered `children`.
* A regular expression is embedded as a `Pattern`: its raw source string
  (whose Python truthiness drives the dispatch in `check`) together with its
  compiled meaning, `Option (String → Bool)` — `none` models a pattern that
  fails to compile, in which case any search using it raises, matching the
  "fails fast on a malformed pattern" behaviour.
* Python exceptions are modelled with `Except EvalError`.
-/

set_option autoImplicit false

namespace AuditTool

/-- One configuration line: positional identity, verbatim text, and ordered
children. Identity is positional (line order in the original file), so
distinct lines of a well-formed tree are distinct values. -/
inductive CNode where
  | mk (lineNo : Nat) (text : String) (children : List CNode)

mutual

def CNode.decEq : (a b : CNode) → Decidable (a = b)
  | .mk n t cs, .mk m u ds =>
    if h1 : n = m then
      if h2 : t = u then
        match CNode.decEqList cs ds with
        | isTrue h3 => isTrue (by rw [h1, h2, h3])
        | isFalse h3 => isFalse (fun h => h3 (by injection h))
      else isFalse (fun h => h2 (by injection h))
    else isFalse (fun h => h1 (by injection h))

def CNode.decEqList : (as bs : List CNode) → Decidable (as = bs)
  | [], [] => isTrue rfl
  | [], _ :: _ => isFalse (by simp)
  | _ :: _, [] => isFalse (by simp)
  | c :: cs, d :: ds =>
    match CNode.decEq c d, CNode.decEqList cs ds with
    | isTrue h1, isTrue h2 => isTrue (by rw [h1, h2])
    | isFalse h1, _ => isFalse (fun h => h1 (by injection h))
    | _, isFalse h2 => isFalse (fun h => h2 (by injection h))

end

instance : DecidableEq CNode := CNode.decEq

def CNode.lineNo : CNode → Nat
  | .mk n _ _ => n

def CNode.text : CNode → String
  | .mk _ t _ => t

def CNode.children : CNode → List CNode
  | .mk _ _ cs => cs

mutual

/-- The node together with all its descendants, in document (preorder) order. -/
def allNodesOf : CNode → List CNode
  | .mk n t cs => .mk n t cs :: allNodesList cs

/-- All nodes of a forest with their descendants, in document order. -/
def allNodesList : List CNode → List CNode
  | [] => []
  | c :: cs => allNodesOf c ++ allNodesList cs

end

/-- All strict descendants of a node, in document order. -/
def descendantsOf (n : CNode) : List CNode :=
  allNodesList n.children

/-- A regular expression as delivered in a rule record: the raw source text
(as it appears in the YAML, used for Python truthiness) and its compiled
meaning. `compiled = none` models a pattern that fails to compile. -/
structure Pattern where
  raw : String
  compiled : Option (String → Bool)

/-- The dynamic `when` field of a hierarchical check: a YAML boolean or a
pattern (Python: `isinstance(when, bool)` distinguishes the two). -/
inductive WhenVal where
  | bool (b : Bool)
  | pat (p : Pattern)

/-- Python exceptions that evaluation can raise: `re.error` from a pattern
that fails to compile, `TypeError` from handing a non-pattern to a search,
and `KeyError` from a missing dict key. -/
inductive EvalError where
  | malformedPattern
  | typeError
  | keyError
deriving DecidableEq

instance {ε α : Type} [DecidableEq ε] [DecidableEq α] : DecidableEq (Except ε α) := fun a b =>
  match a, b with
  | .error e, .error f =>
    if h : e = f then isTrue (by rw [h]) else isFalse fun he => h (by injection he)
  | .ok x, .ok y =>
    if h : x = y then isTrue (by rw [h]) else isFalse fun he => h (by injection he)
  | .error _, .ok _ => isFalse fun he => Except.noConfusion he
  | .ok _, .error _ => isFalse fun he => Except.noConfusion he

/-- The `check` sub-record of a rule (`rule['check']` in the source):
optional `parent` pattern, optional dynamic `when`, required `text` pattern
and `text_cnt` expected count. `none` models an absent key (Python `.get`
returns `None`; indexing raises `KeyError`). -/
structure CheckSpec where
  parent : Option Pattern
  whenv : Option WhenVal
  text : Pattern
  text_cnt : Nat

/-- A loaded rule record. `severity` and `desc` are reporting-only;
`part_of_stig` holds the applicability tags. -/
structure Rule where
  severity : String := ""
  desc : String := ""
  part_of_stig : List String := []
  check : CheckSpec

/-- The result of one rule evaluation: the verdict string exactly as the
source produces it (`"PASS"`, `"FAIL"`, `"N/A"`) and the three
classification lists from the `'iter'` dict. -/
structure RuleOutcome where
  success : String
  passNodes : List CNode
  failNodes : List CNode
  naNodes : List CNode
deriving DecidableEq

/-- Modelled from the spec: the external Configuration Tree search (§6)
applies the pattern to each node of the given document-ordered list via
`re.search`, keeping matches in order. A pattern that fails to compile
raises at its first use, i.e. as soon as there is a node to search
(`re.error`, modelled as `malformedPattern`). -/
def searchList (p : Pattern) (ns : List CNode) : Except EvalError (List CNode) :=
  match ns, p.compiled with
  | [], _ => .ok []
  | _ :: _, none => .error .malformedPattern
  | _ :: _, some m => .ok (ns.filter fun n => m n.text)

/-- `parse.find_objects(pattern)`: every node anywhere in the tree whose
text matches the pattern, in document order (§6 `findAll`). -/
def find_objects (t : List CNode) (p : Pattern) : Except EvalError (List CNode) :=
  searchList p (allNodesList t)

/-- `parent.re_search_children(pattern)`: every descendant of the node
whose text matches the pattern, in document order (§6 `searchDescendants`). -/
def re_search_children (n : CNode) (p : Pattern) : Except EvalError (List CNode) :=
  searchList p (descendantsOf n)

/-- `parent.re_search_children(when_value)` with the dynamic `when` value as
argument (line 84 of the source): a pattern is searched; a boolean is handed
to `re.search`, which raises `TypeError` as soon as there is a node to
search. (`when = True` never reaches this call: the `or` short-circuits.) -/
def re_search_children_when (n : CNode) (w : WhenVal) : Except EvalError (List CNode) :=
  match w with
  | .pat p => re_search_children n p
  | .bool _ => if (descendantsOf n).isEmpty then .ok [] else .error .typeError

/-- The per-parent body of the `for parent in parents` loop of `_check_hier`
(lines 82–91): decide applicability from `when`, then either classify as
not-applicable or count the descendants matching the child pattern and
classify pass/fail by comparison with `text_cnt`. -/
inductive Classification where
  | cpass
  | cfail
  | cna
deriving DecidableEq

def classifyParent (c : CheckSpec) (p : CNode) : Except EvalError Classification :=
  match c.whenv with
  | none => .error .keyError
  | some w =>
    let whenFlag : Bool := match w with
      | .bool b => b
      | .pat _ => false
    let applicable : Except EvalError Bool :=
      if whenFlag then .ok true
      else
        match re_search_children_when p w with
        | .error e => .error e
        | .ok objs => .ok (!objs.isEmpty)
    match applicable with
    | .error e => .error e
    | .ok a =>
      if a then
        match re_search_children p c.text with
        | .error e => .error e
        | .ok search => .ok (if search.length = c.text_cnt then .cpass else .cfail)
      else
        .ok .cna

/-- The classification loop of `_check_hier`: parents are processed in
order, each appended to exactly one of the three lists; the first raised
exception aborts the whole evaluation. -/
def hierLoop (c : CheckSpec) : List CNode → Except EvalError (List CNode × List CNode × List CNode)
  | [] => .ok ([], [], [])
  | p :: rest =>
    match classifyParent c p with
    | .error e => .error e
    | .ok cl =>
      match hierLoop c rest with
      | .error e => .error e
      | .ok (ps, fs, ns) =>
        match cl with
        | .cpass => .ok (p :: ps, fs, ns)
        | .cfail => .ok (ps, p :: fs, ns)
        | .cna => .ok (ps, fs, p :: ns)

/-- `_check_hier` (lines 62–99): find the candidate parents, classify each,
then derive the overall verdict: `FAIL` if any parent failed, else `N/A` if
there are not-applicable parents and no passing ones, else `PASS`. -/
def check_hier (t : List CNode) (r : Rule) : Except EvalError RuleOutcome :=
  match r.check.parent with
  | none => .error .keyError
  | some pp =>
    match find_objects t pp with
    | .error e => .error e
    | .ok parents =>
      match hierLoop r.check parents with
      | .error e => .error e
      | .ok (ps, fs, ns) =>
        .ok { success :=
                if !fs.isEmpty then "FAIL"
                else if !ns.isEmpty && ps.isEmpty then "N/A"
                else "PASS"
            , passNodes := ps, failNodes := fs, naNodes := ns }

/-- `_check_global` (lines 41–60): count the nodes matching the search text
anywhere in the configuration; if the count equals `text_cnt` the matched
nodes are pass objects and the verdict is `PASS`, otherwise they are fail
objects and the verdict is `FAIL`. The `when` condition is never read. -/
def check_global (t : List CNode) (r : Rule) : Except EvalError RuleOutcome :=
  match find_objects t r.check.text with
  | .error e => .error e
  | .ok objs =>
    if objs.length = r.check.text_cnt then
      .ok { success := "PASS", passNodes := objs, failNodes := [], naNodes := [] }
    else
      .ok { success := "FAIL", passNodes := [], failNodes := objs, naNodes := [] }

/-- Python truthiness of `rule['check'].get('parent')`: `None` (absent key)
and the empty string are falsy, any other string is truthy. -/
def parentTruthy : Option Pattern → Bool
  | none => false
  | some p => !(p.raw == "")

/-- `check` (lines 36–39): dispatch on the truthiness of the `parent` value
of the check record. -/
def check (t : List CNode) (r : Rule) : Except EvalError RuleOutcome :=
  if parentTruthy r.check.parent then check_hier t r else check_global t r

/-! ## The `main` orchestration (lines 115–148)

The IO boundary (argument parsing, globbing, file reading) is abstracted:
a run is driven by the outcome of the configuration parse, the resolved
stig tag list, and the ordered list of rule files, each already reduced to
the outcome of its `yaml.safe_load` call. -/

/-- One rule file after the `yaml.safe_load` attempt of lines 127–132:
either the load raised (caught, logged, `continue`) or it produced a rule
record. -/
inductive RuleFileData where
  | malformedYaml
  | loaded (r : Rule)

/-- The `logging.error` calls that the run can emit. -/
inductive LogEvent where
  | configParseError
  | yamlLoadError
deriving DecidableEq

/-- Line 134: `[v for v in stigs if v in rule_data.get('part_of_stig', [])]`. -/
def overlap (stigs : List String) (r : Rule) : List String :=
  stigs.filter fun v => r.part_of_stig.contains v

/-- The rule loop of `main` (lines 125–148): a file whose YAML fails to
load is logged and skipped; a rule whose tags do not intersect the
requested stigs is skipped; otherwise the rule is evaluated and counted as
a failure when its verdict is `FAIL`. `check` is not wrapped in any
handler, so an exception raised during evaluation aborts the whole loop.
Returns the final `fail_cnt` together with the log entries emitted. -/
def mainLoop (t : List CNode) (stigs : List String) :
    List RuleFileData → Except EvalError (Nat × List LogEvent)
  | [] => .ok (0, [])
  | .malformedYaml :: rest =>
    match mainLoop t stigs rest with
    | .error e => .error e
    | .ok (n, ls) => .ok (n, .yamlLoadError :: ls)
  | .loaded r :: rest =>
    if (overlap stigs r).isEmpty then mainLoop t stigs rest
    else
      match check t r with
      | .error e => .error e
      | .ok out =>
        match mainLoop t stigs rest with
        | .error e => .error e
        | .ok (n, ls) => .ok ((if out.success == "FAIL" then 1 else 0) + n, ls)

/-- The result of `CiscoConfParse(args.config_file)` at lines 117–121:
either the constructor raised (any exception) or it produced the tree. -/
inductive ConfigLoad where
  | parseError
  | parsed (t : List CNode)

/-- How a run of `main` terminates: a `sys.exit` with an exit code and the
emitted log entries, or a crash on an exception that no handler catches
(Python prints a traceback; nothing is logged for it). -/
inductive RunResult where
  | exited (code : Nat) (logs : List LogEvent)
  | crashed (e : EvalError)
deriving DecidableEq

/-- `main` (lines 115–148): a configuration-parse failure is logged and
exits with status 1 before any rule is touched; otherwise the rule loop
runs and its final `fail_cnt` becomes the exit status, unless an uncaught
evaluation exception crashes the run. -/
def mainRun (cfg : ConfigLoad) (stigs : List String) (files : List RuleFileData) : RunResult :=
  match cfg with
  | .parseError => .exited 1 [.configParseError]
  | .parsed t =>
    match mainLoop t stigs files with
    | .ok (n, ls) => .exited n ls
    | .error e => .crashed e

/-- Modelled from the spec: the sequence of outcomes of exactly the rules
that the run evaluates — successfully loaded and with a tag intersection —
in catalog order. Used to state the aggregation contract (§4.3): the exit
status is the number of these outcomes whose verdict is `FAIL`. -/
def evaluatedOutcomes (t : List CNode) (stigs : List String) :
    List RuleFileData → Except EvalError (List RuleOutcome)
  | [] => .ok []
  | .malformedYaml :: rest => evaluatedOutcomes t stigs rest
  | .loaded r :: rest =>
    if (overlap stigs r).isEmpty then evaluatedOutcomes t stigs rest
    else
      match check t r with
      | .error e => .error e
      | .ok out =>
        match evaluatedOutcomes t stigs rest with
        | .error e => .error e
        | .ok outs => .ok (out :: outs)

/-! ## Concrete inputs for witnesses and counterexamples -/

/-- An exact-match pattern: raw source together with a whole-line matcher. -/
def litPat (s : String) : Pattern := ⟨s, some fun t => t == s⟩

/-- A pattern whose compilation fails (`re.error` on first use). -/
def badPat : Pattern := ⟨"(unclosed", none⟩

/-- A concrete hierarchical rule: `line con 0` parents must contain exactly
one `transport input ssh` child; always applicable. -/
def c1rule : Rule :=
  { check := { parent := some (litPat "line con 0"), whenv := some (.bool true),
               text := litPat "transport input ssh", text_cnt := 1 } }

/-- A two-line flat configuration. -/
def c2tree : List CNode :=
  [.mk 0 "hostname r1" [], .mk 1 "no ip http server" []]

/-- A concrete global rule expecting `no ip http server` exactly once. -/
def c2rule : Rule :=
  { check := { parent := none, whenv := none,
               text := litPat "no ip http server", text_cnt := 1 } }

/-- An interface with an address and one matching child line. -/
def c3parent : CNode :=
  .mk 10 "interface GigabitEthernet0/1"
    [.mk 11 "ip address 192.0.2.1 255.255.255.0" [], .mk 12 "no ip proxy-arp" []]

/-- A hierarchical rule gated on the presence of an `ip address` descendant. -/
def c3check : CheckSpec :=
  { parent := some (litPat "interface GigabitEthernet0/1"),
    whenv := some (.pat (litPat "ip address 192.0.2.1 255.255.255.0")),
    text := litPat "no ip proxy-arp", text_cnt := 1 }

/-- An interface without an address (not applicable under `c3check`). -/
def c4parentNoIp : CNode :=
  .mk 20 "interface GigabitEthernet0/2" [.mk 21 "shutdown" []]

/-- A tree with two candidate parents: one applicable and passing, one not
applicable. -/
def c4tree : List CNode := [c3parent, c4parentNoIp]

/-- The parent pattern of `c4rule`: matches both interface lines. -/
def c4parentPat : Pattern :=
  ⟨"interface", some fun t =>
    t == "interface GigabitEthernet0/1" || t == "interface GigabitEthernet0/2"⟩

/-- A rule like `c3check` but matching both interfaces as parents. -/
def c4rule : Rule :=
  { check := { parent := some c4parentPat,
               whenv := some (.pat ⟨"ip address",
                 some fun t => t == "ip address 192.0.2.1 255.255.255.0"⟩),
               text := litPat "no ip proxy-arp", text_cnt := 1 } }

/-- A check record whose `parent` key is present but holds the empty
pattern: Python-falsy, so `check` dispatches to the global algorithm. The
empty regex compiles and matches every line. -/
def c8rule : Rule :=
  { check := { parent := some ⟨"", some fun _ => true⟩,
               whenv := some (.bool true),
               text := litPat "banner motd", text_cnt := 1 } }

/-- A one-line configuration for the dispatch counterexample. -/
def c8tree : List CNode := [.mk 0 "banner motd" []]

/-- A passing global rule tagged for stig1. -/
def c9rule : Rule :=
  { part_of_stig := ["stig1"],
    check := { parent := none, whenv := none,
               text := litPat "hostname r1", text_cnt := 1 } }

/-- A failing global rule tagged for stig1 (expects two matches, gets one). -/
def c7failRule : Rule :=
  { part_of_stig := ["stig1"],
    check := { parent := none, whenv := none,
               text := litPat "hostname r1", text_cnt := 2 } }

/-- A rule tagged for a different stig; its pattern would crash evaluation,
but tag filtering skips it before `check` is ever called. -/
def c7skipRule : Rule :=
  { part_of_stig := ["other"],
    check := { parent := none, whenv := none, text := badPat, text_cnt := 0 } }

/-- A rule tagged for stig1 whose pattern fails to compile: evaluating it
raises `re.error`, which `main` does not catch. -/
def c5badRule : Rule :=
  { part_of_stig := ["stig1"],
    check := { parent := none, whenv := none, text := badPat, text_cnt := 0 } }

/-! ## Helper lemmas -/

theorem searchList_ok_nodup (p : Pattern) (ns out : List CNode)
    (hnd : ns.Nodup) (h : searchList p ns = .ok out) : out.Nodup := by
  unfold searchList at h
  split at h
  · cases h; exact List.nodup_nil
  · cases h
  · cases h; exact hnd.filter _

theorem searchList_ok_of_compiled (p : Pattern) (m : String → Bool)
    (hm : p.compiled = some m) (ns : List CNode) :
    searchList p ns = .ok (ns.filter fun n => m n.text) := by
  unfold searchList
  cases ns with
  | nil => rfl
  | cons a l => rw [hm]

theorem classifyParent_bool (c : CheckSpec) (p : CNode) (b : Bool)
    (hw : c.whenv = some (.bool b)) :
    classifyParent c p =
      (match (if b then Except.ok true else
              match re_search_children_when p (.bool b) with
              | .error e => .error e
              | .ok objs => Except.ok (!objs.isEmpty)) with
       | .error e => .error e
       | .ok a =>
         if a then
           match re_search_children p c.text with
           | .error e => .error e
           | .ok search =>
               .ok (if search.length = c.text_cnt then Classification.cpass
                    else Classification.cfail)
         else .ok .cna) := by
  unfold classifyParent
  simp only [hw]

theorem classifyParent_pat (c : CheckSpec) (p : CNode) (pm : Pattern)
    (hw : c.whenv = some (.pat pm)) :
    classifyParent c p =
      (match (match re_search_children_when p (.pat pm) with
              | Except.error e => Except.error e
              | Except.ok objs => Except.ok (!objs.isEmpty)) with
       | .error e => .error e
       | .ok a =>
         if a then
           match re_search_children p c.text with
           | .error e => .error e
           | .ok search =>
               .ok (if search.length = c.text_cnt then Classification.cpass
                    else Classification.cfail)
         else .ok .cna) := by
  unfold classifyParent
  simp only [hw]
  rfl

theorem hierLoop_cons_ok (c : CheckSpec) (p : CNode) (rest ps fs ns : List CNode)
    (h : hierLoop c (p :: rest) = .ok (ps, fs, ns)) :
    ∃ cl ps' fs' ns', classifyParent c p = .ok cl ∧
      hierLoop c rest = .ok (ps', fs', ns') ∧
      ((cl = Classification.cpass ∧ ps = p :: ps' ∧ fs = fs' ∧ ns = ns') ∨
       (cl = Classification.cfail ∧ ps = ps' ∧ fs = p :: fs' ∧ ns = ns') ∨
       (cl = Classification.cna ∧ ps = ps' ∧ fs = fs' ∧ ns = p :: ns')) := by
  unfold hierLoop at h
  split at h
  · cases h
  · rename_i cl hcl
    split at h
    · cases h
    · rename_i ps' fs' ns' htrip
      split at h <;> cases h
      · exact ⟨_, _, _, _, hcl, htrip, Or.inl ⟨rfl, rfl, rfl, rfl⟩⟩
      · exact ⟨_, _, _, _, hcl, htrip, Or.inr (Or.inl ⟨rfl, rfl, rfl, rfl⟩)⟩
      · exact ⟨_, _, _, _, hcl, htrip, Or.inr (Or.inr ⟨rfl, rfl, rfl, rfl⟩)⟩

theorem hierLoop_spec (c : CheckSpec) :
    ∀ parents ps fs ns, hierLoop c parents = .ok (ps, fs, ns) →
      List.Sublist ps parents ∧ List.Sublist fs parents ∧ List.Sublist ns parents ∧
      ∀ n, n ∈ parents ↔ n ∈ ps ∨ n ∈ fs ∨ n ∈ ns := by
  intro parents
  induction parents with
  | nil =>
    intro ps fs ns h
    unfold hierLoop at h
    cases h
    simp
  | cons p rest ih =>
    intro ps fs ns h
    obtain ⟨cl, ps', fs', ns', hcl, htrip, hcase⟩ := hierLoop_cons_ok c p rest ps fs ns h
    obtain ⟨s1, s2, s3, hm⟩ := ih ps' fs' ns' htrip
    rcases hcase with ⟨-, rfl, rfl, rfl⟩ | ⟨-, rfl, rfl, rfl⟩ | ⟨-, rfl, rfl, rfl⟩
    · refine ⟨List.Sublist.cons₂ p s1, List.Sublist.cons p s2, List.Sublist.cons p s3, ?_⟩
      intro n
      simp only [List.mem_cons, hm n]
      tauto
    · refine ⟨List.Sublist.cons p s1, List.Sublist.cons₂ p s2, List.Sublist.cons p s3, ?_⟩
      intro n
      simp only [List.mem_cons, hm n]
      tauto
    · refine ⟨List.Sublist.cons p s1, List.Sublist.cons p s2, List.Sublist.cons₂ p s3, ?_⟩
      intro n
      simp only [List.mem_cons, hm n]
      tauto

theorem hierLoop_nodup (c : CheckSpec) :
    ∀ parents ps fs ns, parents.Nodup → hierLoop c parents = .ok (ps, fs, ns) →
      (ps.Nodup ∧ fs.Nodup ∧ ns.Nodup) ∧
      (∀ n, n ∈ ps → n ∉ fs) ∧ (∀ n, n ∈ ps → n ∉ ns) ∧ (∀ n, n ∈ fs → n ∉ ns) := by
  intro parents
  induction parents with
  | nil =>
    intro ps fs ns _ h
    unfold hierLoop at h
    cases h
    simp
  | cons p rest ih =>
    intro ps fs ns hnd h
    obtain ⟨hp, hrest⟩ := List.nodup_cons.mp hnd
    obtain ⟨cl, ps', fs', ns', hcl, htrip, hcase⟩ := hierLoop_cons_ok c p rest ps fs ns h
    obtain ⟨s1, s2, s3, -⟩ := hierLoop_spec c rest ps' fs' ns' htrip
    have hp1 : p ∉ ps' := fun hm => hp (s1.subset hm)
    have hp2 : p ∉ fs' := fun hm => hp (s2.subset hm)
    have hp3 : p ∉ ns' := fun hm => hp (s3.subset hm)
    obtain ⟨⟨n1, n2, n3⟩, d12, d13, d23⟩ := ih ps' fs' ns' hrest htrip
    rcases hcase with ⟨-, rfl, rfl, rfl⟩ | ⟨-, rfl, rfl, rfl⟩ | ⟨-, rfl, rfl, rfl⟩
    · refine ⟨⟨List.nodup_cons.mpr ⟨hp1, n1⟩, n2, n3⟩, ?_, ?_, d23⟩
      · intro n hn
        rcases List.mem_cons.mp hn with rfl | hn'
        · exact hp2
        · exact d12 n hn'
      · intro n hn
        rcases List.mem_cons.mp hn with rfl | hn'
        · exact hp3
        · exact d13 n hn'
    · refine ⟨⟨n1, List.nodup_cons.mpr ⟨hp2, n2⟩, n3⟩, ?_, d13, ?_⟩
      · intro n hn hmem
        rcases List.mem_cons.mp hmem with rfl | hn'
        · exact hp1 hn
        · exact d12 n hn hn'
      · intro n hn
        rcases List.mem_cons.mp hn with rfl | hn'
        · exact hp3
        · exact d23 n hn'
    · refine ⟨⟨n1, n2, List.nodup_cons.mpr ⟨hp3, n3⟩⟩, d12, ?_, ?_⟩
      · intro n hn hmem
        rcases List.mem_cons.mp hmem with rfl | hn'
        · exact hp1 hn
        · exact d13 n hn hn'
      · intro n hn hmem
        rcases List.mem_cons.mp hmem with rfl | hn'
        · exact hp2 hn
        · exact d23 n hn hn'

theorem check_hier_ok (t : List CNode) (r : Rule) (out : RuleOutcome)
    (h : check_hier t r = .ok out) :
    ∃ pp parents, r.check.parent = some pp ∧ find_objects t pp = .ok parents ∧
      hierLoop r.check parents = .ok (out.passNodes, out.failNodes, out.naNodes) ∧
      out.success = (if !out.failNodes.isEmpty then "FAIL"
        else if !out.naNodes.isEmpty && out.passNodes.isEmpty then "N/A" else "PASS") := by
  unfold check_hier at h
  split at h
  · cases h
  · rename_i pp hpp
    split at h
    · cases h
    · rename_i parents hparents
      split at h
      · cases h
      · rename_i ps fs ns htrip
        cases h
        exact ⟨pp, parents, hpp, hparents, htrip, rfl⟩

theorem mainRun_parsed (t : List CNode) (stigs : List String)
    (files : List RuleFileData) :
    mainRun (.parsed t) stigs files =
      (match mainLoop t stigs files with
       | .ok (n, ls) => RunResult.exited n ls
       | .error e => RunResult.crashed e) := by
  unfold mainRun
  rfl

theorem evaluatedOutcomes_cons_loaded (t : List CNode) (stigs : List String)
    (r : Rule) (rest : List RuleFileData) (res : List RuleOutcome)
    (hov : (overlap stigs r).isEmpty = false)
    (h : evaluatedOutcomes t stigs (.loaded r :: rest) = .ok res) :
    ∃ out outs, check t r = .ok out ∧
      evaluatedOutcomes t stigs rest = .ok outs ∧ res = out :: outs := by
  unfold evaluatedOutcomes at h
  rw [hov] at h
  rw [if_neg (by decide : ¬(false = true))] at h
  split at h
  · cases h
  · rename_i out hout
    split at h
    · cases h
    · rename_i outs2 houts
      cases h
      exact ⟨out, outs2, hout, houts, rfl⟩

theorem mainLoop_count (t : List CNode) (stigs : List String) :
    ∀ files n ls outs, mainLoop t stigs files = .ok (n, ls) →
      evaluatedOutcomes t stigs files = .ok outs →
      n = (outs.filter fun o => o.success == "FAIL").length := by
  intro files
  induction files with
  | nil =>
    intro n ls outs h he
    unfold mainLoop at h
    unfold evaluatedOutcomes at he
    cases h
    cases he
    rfl
  | cons f rest ih =>
    intro n ls outs h he
    cases f with
    | malformedYaml =>
      unfold mainLoop at h
      unfold evaluatedOutcomes at he
      split at h
      · cases h
      · rename_i n' ls' hrest
        cases h
        exact ih _ _ outs hrest he
    | loaded r =>
      unfold mainLoop at h
      unfold evaluatedOutcomes at he
      by_cases hov : (overlap stigs r).isEmpty = true
      · rw [if_pos hov] at h
        rw [if_pos hov] at he
        exact ih n ls outs h he
      · rw [if_neg hov] at h
        rw [if_neg hov] at he
        split at h
        · cases h
        · rename_i out hout
          split at he
          · rename_i e2 hout2
            rw [hout] at hout2
            cases hout2
          · rename_i out2 hout2
            rw [hout] at hout2
            injection hout2 with e0
            subst e0
            split at h
            · cases h
            · rename_i n' ls' hrest
              cases h
              split at he
              · cases he
              · rename_i outs' houts
                cases he
                rw [ih _ _ outs' hrest houts]
                cases hs : out.success == "FAIL" <;>
                  (simp [List.filter_cons, hs]; try omega)

/-! ## Claims -/

/-- **C1**: for every hierarchical-check evaluation, the overall verdict is
determined from the three classification lists: `FAIL` if `fail_nodes` is
non-empty; otherwise `N/A` (= NOT_APPLICABLE) if `na_nodes` is non-empty and
`pass_nodes` is empty; otherwise `PASS` — and zero candidate parents yields
verdict `PASS` with all three lists empty. -/
theorem c1_hier_verdict_from_lists (t : List CNode) (r : Rule) :
    (∀ out, check_hier t r = .ok out →
      (out.failNodes ≠ [] → out.success = "FAIL") ∧
      (out.failNodes = [] → out.naNodes ≠ [] → out.passNodes = [] →
        out.success = "N/A") ∧
      (out.failNodes = [] → (out.naNodes = [] ∨ out.passNodes ≠ []) →
        out.success = "PASS")) ∧
    (∀ pp, r.check.parent = some pp → find_objects t pp = .ok [] →
      check_hier t r = .ok ⟨"PASS", [], [], []⟩) := by
  constructor
  · intro out h
    obtain ⟨pp, parents, -, -, -, hsucc⟩ := check_hier_ok t r out h
    rw [hsucc]
    generalize out.failNodes = fs
    generalize out.naNodes = ns
    generalize out.passNodes = ps
    cases fs <;> cases ns <;> cases ps <;> simp
  · intro pp hpp hfind
    have step1 : check_hier t r =
        (match find_objects t pp with
         | .error e => .error e
         | .ok parents =>
           match hierLoop r.check parents with
           | .error e => .error e
           | .ok (ps, fs, ns) =>
             .ok { success :=
                     if !fs.isEmpty then "FAIL"
                     else if !ns.isEmpty && ps.isEmpty then "N/A"
                     else "PASS"
                 , passNodes := ps, failNodes := fs, naNodes := ns }) := by
      unfold check_hier
      rw [hpp]
    rw [step1, hfind]
    rfl

/-- Witness for C1: on the empty configuration the parent search of
`c1rule` finds zero candidate parents and the verdict is a vacuous `PASS`
with all three lists empty. -/
theorem c1_hier_verdict_from_lists_witness :
    check_hier [] c1rule = .ok ⟨"PASS", [], [], []⟩ :=
  (c1_hier_verdict_from_lists [] c1rule).2 (litPat "line con 0") rfl rfl

/-- **C2**: for every tree and global rule, if the number of nodes matching
the pattern equals `expected_count` the verdict is `PASS` with all matches
in `pass_nodes`, otherwise `FAIL` with all matches in `fail_nodes`; the
remaining lists are empty, so `na_nodes` is always empty and the sizes of
`pass_nodes` and `fail_nodes` sum to the match count. -/
theorem c2_global_verdict (t : List CNode) (r : Rule) (objs : List CNode)
    (h : find_objects t r.check.text = .ok objs) :
    (objs.length = r.check.text_cnt →
      check_global t r = .ok ⟨"PASS", objs, [], []⟩) ∧
    (objs.length ≠ r.check.text_cnt →
      check_global t r = .ok ⟨"FAIL", [], objs, []⟩) := by
  constructor <;> intro hc <;> unfold check_global <;> rw [h] <;> simp [hc]

/-- Witness for C2: `c2rule` matches exactly one line of `c2tree` with
`expected_count = 1`, so the verdict is `PASS` with that line as the only
pass node. -/
theorem c2_global_verdict_witness :
    check_global c2tree c2rule = .ok ⟨"PASS", [.mk 1 "no ip http server" []], [], []⟩ :=
  (c2_global_verdict c2tree c2rule [.mk 1 "no ip http server" []] rfl).1 rfl

/-- **C3**: per-parent classification of a hierarchical check: a candidate
parent is applicable iff `when` is the literal boolean `true` or at least
one descendant of the parent matches the `when` pattern; a non-applicable
parent is classified into the `na` list without the child pattern being
evaluated (no hypothesis on the child pattern is needed); an applicable
parent is classified `pass` iff the number of its descendants matching the
child pattern equals `expected_count`, and `fail` otherwise. -/
theorem c3_per_parent_classification (c : CheckSpec) (p : CNode) :
    (∀ mt, c.whenv = some (.bool true) → c.text.compiled = some mt →
      classifyParent c p =
        .ok (if ((descendantsOf p).filter fun d => mt d.text).length = c.text_cnt
             then .cpass else .cfail)) ∧
    (∀ pm mw, c.whenv = some (.pat pm) → pm.compiled = some mw →
      (∀ d ∈ descendantsOf p, mw d.text = false) →
      classifyParent c p = .ok .cna) ∧
    (∀ pm mw mt, c.whenv = some (.pat pm) → pm.compiled = some mw →
      (∃ d ∈ descendantsOf p, mw d.text = true) → c.text.compiled = some mt →
      classifyParent c p =
        .ok (if ((descendantsOf p).filter fun d => mt d.text).length = c.text_cnt
             then .cpass else .cfail)) ∧
    (∀ parents ps fs ns cl, hierLoop c parents = .ok (ps, fs, ns) → p ∈ parents →
      classifyParent c p = .ok cl →
      (cl = .cpass → p ∈ ps) ∧ (cl = .cfail → p ∈ fs) ∧ (cl = .cna → p ∈ ns)) := by
  refine ⟨?_, ?_, ?_, ?_⟩
  · intro mt hw hmt
    have htext : re_search_children p c.text =
        .ok ((descendantsOf p).filter fun d => mt d.text) := by
      unfold re_search_children
      exact searchList_ok_of_compiled c.text mt hmt (descendantsOf p)
    rw [classifyParent_bool c p true hw, htext]
    rfl
  · intro pm mw hw hmw hnone
    have hwhen : re_search_children_when p (.pat pm) = .ok [] := by
      show searchList pm (descendantsOf p) = .ok []
      rw [searchList_ok_of_compiled pm mw hmw (descendantsOf p)]
      have hfil : ((descendantsOf p).filter fun d => mw d.text) = [] :=
        List.filter_eq_nil_iff.mpr fun d hd => by simp [hnone d hd]
      rw [hfil]
    rw [classifyParent_pat c p pm hw, hwhen]
    rfl
  · intro pm mw mt hw hmw hex hmt
    obtain ⟨d, hd, hmatch⟩ := hex
    have hwhen : re_search_children_when p (.pat pm) =
        .ok ((descendantsOf p).filter fun x => mw x.text) := by
      show searchList pm (descendantsOf p) = _
      exact searchList_ok_of_compiled pm mw hmw (descendantsOf p)
    have htext : re_search_children p c.text =
        .ok ((descendantsOf p).filter fun x => mt x.text) := by
      unfold re_search_children
      exact searchList_ok_of_compiled c.text mt hmt (descendantsOf p)
    rw [classifyParent_pat c p pm hw, hwhen, htext]
    cases hl : (descendantsOf p).filter fun x => mw x.text with
    | nil =>
      rw [List.filter_eq_nil_iff] at hl
      exact absurd hmatch (by simpa using hl d hd)
    | cons a l => rfl
  · intro parents
    induction parents with
    | nil =>
      intro ps fs ns cl _ hmem
      exact absurd hmem (List.not_mem_nil p)
    | cons q rest ih =>
      intro ps fs ns cl h hmem hcl
      obtain ⟨cl', ps', fs', ns', hcl', htrip, hcase⟩ := hierLoop_cons_ok c q rest ps fs ns h
      rcases List.mem_cons.mp hmem with rfl | hmem'
      · have hee : cl' = cl := Except.ok.inj (hcl'.symm.trans hcl)
        subst hee
        rcases hcase with ⟨rfl, rfl, rfl, rfl⟩ | ⟨rfl, rfl, rfl, rfl⟩ | ⟨rfl, rfl, rfl, rfl⟩
        · exact ⟨fun _ => List.mem_cons_self p ps',
            fun hk => absurd hk (by decide), fun hk => absurd hk (by decide)⟩
        · exact ⟨fun hk => absurd hk (by decide),
            fun _ => List.mem_cons_self p fs', fun hk => absurd hk (by decide)⟩
        · exact ⟨fun hk => absurd hk (by decide),
            fun hk => absurd hk (by decide), fun _ => List.mem_cons_self p ns'⟩
      · obtain ⟨i1, i2, i3⟩ := ih ps' fs' ns' cl htrip hmem' hcl
        rcases hcase with ⟨-, rfl, rfl, rfl⟩ | ⟨-, rfl, rfl, rfl⟩ | ⟨-, rfl, rfl, rfl⟩
        · exact ⟨fun hk => List.mem_cons_of_mem q (i1 hk), i2, i3⟩
        · exact ⟨i1, fun hk => List.mem_cons_of_mem q (i2 hk), i3⟩
        · exact ⟨i1, i2, fun hk => List.mem_cons_of_mem q (i3 hk)⟩

/-- Witness for C3: under `c3check`, the interface with an address and one
matching child is classified `pass`, and the interface without an address
is classified `na`. -/
theorem c3_per_parent_classification_witness :
    classifyParent c3check c3parent = .ok .cpass ∧
    classifyParent c3check c4parentNoIp = .ok .cna := by
  constructor
  · have h := (c3_per_parent_classification c3check c3parent).2.2.1
      (litPat "ip address 192.0.2.1 255.255.255.0")
      (fun t => t == "ip address 192.0.2.1 255.255.255.0")
      (fun t => t == "no ip proxy-arp") rfl rfl
      ⟨.mk 11 "ip address 192.0.2.1 255.255.255.0" [], by decide, by decide⟩ rfl
    exact h.trans (by decide)
  · exact (c3_per_parent_classification c3check c4parentNoIp).2.1
      (litPat "ip address 192.0.2.1 255.255.255.0")
      (fun t => t == "ip address 192.0.2.1 255.255.255.0")
      rfl rfl (by decide)

/-- **C4**: in a hierarchical-check evaluation every candidate parent lands
in exactly one of the three classification lists: membership in the
candidate-parent set is equivalent to membership in the union, no list has
a duplicate, and the lists are pairwise disjoint. (The tree is assumed to
have positionally distinct nodes, which is what the external parser
guarantees: identity is line order.) -/
theorem c4_partition (t : List CNode) (r : Rule) (out : RuleOutcome)
    (pp : Pattern) (parents : List CNode)
    (hnd : (allNodesList t).Nodup)
    (hpp : r.check.parent = some pp)
    (hfind : find_objects t pp = .ok parents)
    (h : check_hier t r = .ok out) :
    (∀ n, n ∈ parents ↔ n ∈ out.passNodes ∨ n ∈ out.failNodes ∨ n ∈ out.naNodes) ∧
    (out.passNodes.Nodup ∧ out.failNodes.Nodup ∧ out.naNodes.Nodup) ∧
    (∀ n, n ∈ out.passNodes → n ∉ out.failNodes) ∧
    (∀ n, n ∈ out.passNodes → n ∉ out.naNodes) ∧
    (∀ n, n ∈ out.failNodes → n ∉ out.naNodes) := by
  obtain ⟨pp2, parents2, hpp2, hfind2, htrip, -⟩ := check_hier_ok t r out h
  rw [hpp] at hpp2
  injection hpp2 with e1
  subst e1
  rw [hfind] at hfind2
  injection hfind2 with e2
  subst e2
  have hndp : parents.Nodup := searchList_ok_nodup pp (allNodesList t) parents hnd hfind
  obtain ⟨-, -, -, hm⟩ := hierLoop_spec r.check parents _ _ _ htrip
  obtain ⟨hnodups, d12, d13, d23⟩ := hierLoop_nodup r.check parents _ _ _ hndp htrip
  exact ⟨fun n => (hm n).trans (by tauto), hnodups, d12, d13, d23⟩

/-- Witness for C4: in the two-interface example the candidate parents are
partitioned as one `pass` node and one `na` node, and the union law applied
at the `na` interface places it in the third list. -/
theorem c4_partition_witness :
    c4parentNoIp ∈ ([c3parent] : List CNode) ∨
      c4parentNoIp ∈ ([] : List CNode) ∨
      c4parentNoIp ∈ ([c4parentNoIp] : List CNode) :=
  ((c4_partition c4tree c4rule ⟨"PASS", [c3parent], [], [c4parentNoIp]⟩
      c4parentPat [c3parent, c4parentNoIp]
      (by decide) rfl (by decide) (by decide)).1 c4parentNoIp).mp (by decide)

/-- **C10**: classification lists preserve document order: for a
hierarchical check each of the three lists is an order-preserving
subsequence of the candidate-parent list returned by the parent search
(which is itself in document order), and for a global check the matched
nodes appear as one whole list (`pass_nodes` on a count match, otherwise
`fail_nodes`) in exactly the order the search returned them. -/
theorem c10_document_order (t : List CNode) (r : Rule) :
    (∀ out pp parents, r.check.parent = some pp → find_objects t pp = .ok parents →
      check_hier t r = .ok out →
      List.Sublist out.passNodes parents ∧ List.Sublist out.failNodes parents ∧
        List.Sublist out.naNodes parents) ∧
    (∀ out objs, find_objects t r.check.text = .ok objs → check_global t r = .ok out →
      (out.passNodes = objs ∧ out.failNodes = []) ∨
      (out.failNodes = objs ∧ out.passNodes = [])) := by
  constructor
  · intro out pp parents hpp hfind h
    obtain ⟨pp2, parents2, hpp2, hfind2, htrip, -⟩ := check_hier_ok t r out h
    rw [hpp] at hpp2
    injection hpp2 with e1
    subst e1
    rw [hfind] at hfind2
    injection hfind2 with e2
    subst e2
    obtain ⟨s1, s2, s3, -⟩ := hierLoop_spec r.check parents _ _ _ htrip
    exact ⟨s1, s2, s3⟩
  · intro out objs hfind h
    have step : check_global t r =
        (if objs.length = r.check.text_cnt then
           Except.ok ⟨"PASS", objs, [], []⟩
         else Except.ok ⟨"FAIL", [], objs, []⟩) := by
      unfold check_global
      rw [hfind]
    rw [step] at h
    split at h <;> cases h
    · exact Or.inl ⟨rfl, rfl⟩
    · exact Or.inr ⟨rfl, rfl⟩

/-- Witness for C10: in the two-interface example the `na` list is an
order-preserving subsequence of the candidate-parent list. -/
theorem c10_document_order_witness :
    List.Sublist ([c4parentNoIp] : List CNode) [c3parent, c4parentNoIp] :=
  ((c10_document_order c4tree c4rule).1 ⟨"PASS", [c3parent], [], [c4parentNoIp]⟩
    c4parentPat [c3parent, c4parentNoIp]
    rfl (by decide) (by decide)).2.2

/-- Counterexample to C5 as stated: a rule whose pattern fails to compile
during evaluation crashes the whole run — the `check` call of `main`
(line 141) is not wrapped in any handler — so nothing is logged for it and
the remaining rule, which would have evaluated to `FAIL`, is never
evaluated. -/
theorem c5_counterexample :
    mainRun (.parsed c2tree) ["stig1"] [.loaded c5badRule, .loaded c7failRule] =
      .crashed .malformedPattern ∧
    evaluatedOutcomes c2tree ["stig1"] [.loaded c5badRule, .loaded c7failRule] =
      .error .malformedPattern := by
  constructor <;> rfl

/-- **C5 (amended)**: only rule-file *load* failures are recoverable: a
file whose YAML fails to parse is logged and skipped, and the remaining
rules are still processed with the fail count unchanged; but an error
raised *during evaluation* (a pattern failing to compile, an invalid tree)
is uncaught: it aborts the rule loop and crashes the run, so no remaining
rule is evaluated. -/
theorem c5_rule_failure_semantics (t : List CNode) (stigs : List String) :
    (∀ rest n ls, mainLoop t stigs rest = .ok (n, ls) →
      mainLoop t stigs (.malformedYaml :: rest) = .ok (n, .yamlLoadError :: ls)) ∧
    (∀ (r : Rule) rest e, (overlap stigs r).isEmpty = false → check t r = .error e →
      mainLoop t stigs (.loaded r :: rest) = .error e ∧
      mainRun (.parsed t) stigs (.loaded r :: rest) = .crashed e) := by
  constructor
  · intro rest n ls h
    unfold mainLoop
    rw [h]
  · intro r rest e hov hc
    have h1 : mainLoop t stigs (.loaded r :: rest) = .error e := by
      unfold mainLoop
      rw [hov, if_neg (by decide : ¬(false = true)), hc]
    refine ⟨h1, ?_⟩
    rw [mainRun_parsed, h1]

/-- Witness for C5 (amended): a malformed YAML file in front of a healthy
catalog is logged and skipped, and the healthy rule still evaluates. -/
theorem c5_rule_failure_semantics_witness :
    mainLoop c2tree ["stig1"] [.malformedYaml, .loaded c9rule] =
      .ok (0, [.yamlLoadError]) :=
  (c5_rule_failure_semantics c2tree ["stig1"]).1 [.loaded c9rule] 0 [] (by decide)

/-- Counterexample to C6 as stated: a configuration-parse failure exits
with status 1, which is exactly the exit status of a completed run with a
single `FAIL` verdict — the status is not distinctive and can be confused
with a legitimate fail count of 1. -/
theorem c6_counterexample :
    mainRun .parseError ["stig1"] [.loaded c7failRule] =
      .exited 1 [.configParseError] ∧
    mainRun (.parsed c2tree) ["stig1"] [.loaded c7failRule] = .exited 1 [] := by
  constructor <;> rfl

/-- **C6 (amended)**: a configuration-parse failure aborts the run before
any rule evaluation — the result is independent of the rule files — logs
the cause, and exits with status 1: non-zero, but equal to the exit status
of a completed run whose fail count is 1, hence not distinctive. -/
theorem c6_config_parse_abort (stigs : List String)
    (files files2 : List RuleFileData) :
    mainRun .parseError stigs files = .exited 1 [.configParseError] ∧
    mainRun .parseError stigs files = mainRun .parseError stigs files2 :=
  ⟨rfl, rfl⟩

/-- **C7**: for every run that completes, the exit status equals the number
of evaluated rules whose verdict is `FAIL`, and a rule whose applicability
tags do not intersect the requested stig set is skipped entirely — it is
not evaluated and contributes nothing to the count or the outcome list. -/
theorem c7_exit_status (t : List CNode) (stigs : List String) :
    (∀ files n ls outs,
      mainLoop t stigs files = .ok (n, ls) →
      evaluatedOutcomes t stigs files = .ok outs →
      mainRun (.parsed t) stigs files = .exited n ls ∧
        n = (outs.filter fun o => o.success == "FAIL").length) ∧
    (∀ (r : Rule) rest, (overlap stigs r).isEmpty = true →
      mainLoop t stigs (.loaded r :: rest) = mainLoop t stigs rest ∧
      evaluatedOutcomes t stigs (.loaded r :: rest) =
        evaluatedOutcomes t stigs rest) := by
  constructor
  · intro files n ls outs h he
    refine ⟨?_, mainLoop_count t stigs files n ls outs h he⟩
    rw [mainRun_parsed, h]
  · intro r rest hov
    constructor
    · simp [mainLoop, hov]
    · simp [evaluatedOutcomes, hov]

/-- Witness for C7: a catalog with one passing rule, one failing rule and
one rule filtered out by its tags (whose pattern would even crash if it
were evaluated) completes with exit status 1. -/
theorem c7_exit_status_witness :
    mainRun (.parsed c2tree) ["stig1"]
        [.loaded c9rule, .loaded c7failRule, .loaded c7skipRule] = .exited 1 [] :=
  ((c7_exit_status c2tree ["stig1"]).1
    [.loaded c9rule, .loaded c7failRule, .loaded c7skipRule] 1 []
    [⟨"PASS", [CNode.mk 0 "hostname r1" []], [], []⟩,
     ⟨"FAIL", [], [CNode.mk 0 "hostname r1" []], []⟩]
    (by decide) (by decide)).1

/-- Counterexample to C8 as stated: in `c8rule` the `parent` key is present
in the check record, yet `check` selects the global algorithm (the value is
Python-falsy), whose result on `c8tree` differs from the hierarchical
algorithm's. -/
theorem c8_counterexample :
    c8rule.check.parent ≠ none ∧
    check c8tree c8rule = check_global c8tree c8rule ∧
    check c8tree c8rule ≠ check_hier c8tree c8rule := by
  refine ⟨by simp [c8rule], rfl, by decide⟩

/-- **C8 (amended)**: dispatch follows Python truthiness of the `parent`
value of the check record: a present parent pattern with non-empty raw
source selects the hierarchical algorithm; an absent parent, or a present
one whose raw source is the empty string, selects the global algorithm —
which ignores `when` entirely. -/
theorem c8_dispatch_truthiness (t : List CNode) (r : Rule) :
    (∀ p, r.check.parent = some p → p.raw ≠ "" → check t r = check_hier t r) ∧
    ((r.check.parent = none ∨ ∃ p, r.check.parent = some p ∧ p.raw = "") →
      check t r = check_global t r) ∧
    (∀ w, check_global t { r with check := { r.check with whenv := w } } =
      check_global t r) := by
  refine ⟨?_, ?_, fun w => rfl⟩
  · intro p hp hraw
    have ht : parentTruthy r.check.parent = true := by
      rw [hp]
      unfold parentTruthy
      simp [hraw]
    unfold check
    rw [ht]
    rfl
  · intro hcase
    have ht : parentTruthy r.check.parent = false := by
      rcases hcase with hnone | ⟨p, hp, hraw⟩
      · rw [hnone]; rfl
      · rw [hp]
        unfold parentTruthy
        simp [hraw]
    unfold check
    rw [ht]
    rfl

/-- Witness for C8 (amended): the two-interface rule has a truthy parent
pattern, so `check` runs the hierarchical algorithm on it. -/
theorem c8_dispatch_truthiness_witness :
    check c4tree c4rule = check_hier c4tree c4rule :=
  (c8_dispatch_truthiness c4tree c4rule).1 c4parentPat rfl (by decide)

/-- **C9**: evaluation is deterministic and idempotent: the same rule
listed twice against the unchanged tree produces two identical outcomes in
the evaluated-outcome sequence (the embedding of `check` is a pure function
of the tree and the rule; the source mutates no state during evaluation). -/
theorem c9_idempotent (t : List CNode) (stigs : List String) (r : Rule)
    (rest : List RuleFileData) (o1 o2 : RuleOutcome) (outs : List RuleOutcome)
    (hov : (overlap stigs r).isEmpty = false)
    (h : evaluatedOutcomes t stigs (.loaded r :: .loaded r :: rest) =
      .ok (o1 :: o2 :: outs)) :
    o1 = o2 := by
  obtain ⟨out1, outs1, hc1, he1, heq1⟩ :=
    evaluatedOutcomes_cons_loaded t stigs r _ _ hov h
  obtain ⟨e1, e2⟩ := List.cons.inj heq1
  subst e1
  subst e2
  obtain ⟨out2, outs2, hc2, he2, heq2⟩ :=
    evaluatedOutcomes_cons_loaded t stigs r _ _ hov he1
  obtain ⟨e3, -⟩ := List.cons.inj heq2
  subst e3
  exact Except.ok.inj (hc1.symm.trans hc2)

/-- Witness for C9: the passing rule evaluated twice in a row yields the
same outcome both times. -/
theorem c9_idempotent_witness :
    (⟨"PASS", [CNode.mk 0 "hostname r1" []], [], []⟩ : RuleOutcome) =
      ⟨"PASS", [CNode.mk 0 "hostname r1" []], [], []⟩ :=
  c9_idempotent c2tree ["stig1"] c9rule []
    ⟨"PASS", [CNode.mk 0 "hostname r1" []], [], []⟩
    ⟨"PASS", [CNode.mk 0 "hostname r1" []], [], []⟩ []
    (by decide) (by decide)

end AuditTool
